import Mathlib

/-!
Verification development for the job-search agent's scoring and aggregation
core (`src/scorer.py`, `src/agent.py`, `src/models.py`).

Modelling conventions:
* Python strings are modelled as `List Char` (`Str`); a field that may be
  `None` is `Option Str`.
* Python floats are modelled as exact rationals (`ℚ`); all weights in the
  scorer are decimal literals with two fractional digits, so no float
  rounding artefact can change a comparison here.
* Fallible code is modelled with `Option`: `scoreJob` returns `none`
  exactly where the Python function raises.
* Decimal literals such as `(0.40 : ℚ)` are exact (`OfScientific` on `ℚ`).
-/

set_option maxHeartbeats 1000000

unseal Rat.add Rat.mul Rat.inv Rat.sub Rat.ofScientific

abbrev Str := List Char

/-- ASCII whitespace, the characters `str.strip()` / `str.split()` remove
for the ASCII inputs this code handles. -/
def isPyWs (c : Char) : Bool :=
  c == ' ' || c == '\t' || c == '\n' || c == '\r' || c == '\x0b' || c == '\x0c'

/-- `str.lower()` on one ASCII character: `A`–`Z` maps to `a`–`z`. -/
def pyLowerChar (c : Char) : Char :=
  if 'A' ≤ c && c ≤ 'Z' then Char.ofNat (c.toNat + 32) else c

/-- `s.lower()`. -/
def pyLower (s : Str) : Str := s.map pyLowerChar

/-- Remove trailing whitespace. -/
def dropTrailingWs (s : Str) : Str := (s.reverse.dropWhile isPyWs).reverse

/-- `s.strip()`. -/
def pyStrip (s : Str) : Str := dropTrailingWs (s.dropWhile isPyWs)

/-- `_normalize` (scorer.py line 12): `(s or "").lower().strip()`,
with `None` mapped to the empty string. -/
def pyNormalize (s : Option Str) : Str := pyStrip (pyLower (s.getD []))

/-- Python's `needle in haystack` on strings: substring containment. -/
def isSubstr : Str → Str → Bool
  | n, [] => n.isEmpty
  | n, c :: t => n.isPrefixOf (c :: t) || isSubstr n t

/-- `s.split()` (no argument): split on whitespace runs, dropping empties.
`acc` holds the current in-progress word, reversed. -/
def pySplitAux : Str → Str → List Str
  | [], acc => if acc.isEmpty then [] else [acc.reverse]
  | c :: t, acc =>
    if isPyWs c then
      (if acc.isEmpty then pySplitAux t [] else acc.reverse :: pySplitAux t [])
    else pySplitAux t (c :: acc)

/-- `s.split()`. -/
def pySplit (s : Str) : List Str := pySplitAux s []

/-- `list(dict.fromkeys(xs))`: deduplicate keeping first occurrences.
`seen` accumulates the keys already emitted. -/
def pyDedupAux : List Str → List Str → List Str
  | [], _ => []
  | x :: t, seen =>
    if x ∈ seen then pyDedupAux t seen else x :: pyDedupAux t (x :: seen)

/-- `list(dict.fromkeys(xs))`. -/
def pyDedup (l : List Str) : List Str := pyDedupAux l []

/-- Character class `[a-z0-9]` of the skill-token regex. -/
def isRegexAlnum (c : Char) : Bool :=
  ('a' ≤ c && c ≤ 'z') || ('0' ≤ c && c ≤ '9')

/-- Character class `[\s-]` of the skill-token regex. -/
def isSepChar (c : Char) : Bool := isPyWs c || c == '-'

/-- Greedy extension step of one regex match: after an alphanumeric run,
`(?:[\s-][a-z0-9]+)*` repeatedly consumes one separator followed by an
alphanumeric run.  Fuel-based so the kernel can evaluate it. -/
def extendTok : Nat → Str → Str → Str × Str
  | 0, acc, rest => (acc, rest)
  | fuel + 1, acc, rest =>
    match rest with
    | s :: c :: t =>
      if isSepChar s && isRegexAlnum c then
        extendTok fuel
          (acc ++ s :: c :: t.takeWhile isRegexAlnum)
          (t.dropWhile isRegexAlnum)
      else (acc, rest)
    | _ => (acc, rest)

/-- `re.findall(r"[a-z0-9]+(?:[\s-][a-z0-9]+)*", s)`: leftmost, greedy,
non-overlapping matches.  Fuel-based scanner (fuel `s.length` suffices
since every step consumes at least one character). -/
def findTokens : Nat → Str → List Str
  | 0, _ => []
  | _ + 1, [] => []
  | fuel + 1, c :: t =>
    if isRegexAlnum c then
      let p := extendTok (t.length + 1)
        (c :: t.takeWhile isRegexAlnum) (t.dropWhile isRegexAlnum)
      p.1 :: findTokens fuel p.2
    else findTokens fuel t

/-- Maximal digit runs, as found by `re.findall(r"\d+", s)`.
`acc` holds the current in-progress run, reversed. -/
def digitRunsAux : Str → Str → List Str
  | [], acc => if acc.isEmpty then [] else [acc.reverse]
  | c :: t, acc =>
    if c.isDigit then digitRunsAux t (c :: acc)
    else if acc.isEmpty then digitRunsAux t []
    else acc.reverse :: digitRunsAux t []

/-- `re.findall(r"\d+", s)`. -/
def digitRuns (s : Str) : List Str := digitRunsAux s []

/-- `int(n)` on a nonempty digit string. -/
def digitVal (r : Str) : Nat := r.foldl (fun a c => 10 * a + (c.toNat - 48)) 0

/-! ## Data model (`src/models.py`)

`Job.posted_at`, `Job.salary`, `Job.source` and `Job.raw` are never read by
the scorer or the aggregation step and are omitted.  String fields are
`Option Str` because a malformed source may leave them `None`
(the claims about malformed input quantify over that). -/

structure Job where
  id : Str
  title : Option Str
  company : Option Str
  location : Option Str
  url : Option Str
  description : Option Str
  deriving DecidableEq, Repr

structure ScoredJob where
  job : Job
  score : ℚ
  match_reasons : List Str
  keyword_suggestions : List Str
  deriving DecidableEq, Repr

/-- The profile dictionary, restricted to the keys `score_job` reads:
`profile["profile"]["skills"]`, `profile["core_roles"]`,
`profile["stretch_roles"]`, `profile["locations"]`,
`profile["salary_lpa"]` (`min` / `max` / `compare_only_when_listed`,
the latter defaulting to `True`) and `profile["profile"]["level"]`
(defaulting to `"senior"`); the `.get` defaults of the Python dict
accesses are resolved into total fields. -/
structure Profile where
  skills : List Str
  level : Str
  core_roles : List Str
  stretch_roles : List Str
  locations : List Str
  salary_min : Option ℚ
  salary_max : Option ℚ
  compare_only_when_listed : Bool
  deriving DecidableEq, Repr

/-! ## Scorer constants (`src/scorer.py` lines 16–40) -/

def locationAliases : List (Str × List Str) :=
  [("bangalore".data, ["bangalore".data, "bengaluru".data, "bengalore".data]),
   ("gurgaon".data, ["gurgaon".data, "gurugram".data]),
   ("noida".data, ["noida".data]),
   ("hyderabad".data, ["hyderabad".data]),
   ("pune".data, ["pune".data]),
   ("remote".data, ["remote".data, "anywhere".data, "work from home".data, "wfh".data])]

def fresherPhrases : List Str :=
  ["fresher".data, "0-2 years".data, "0-1 years".data, "0 - 2".data, "0 - 1".data,
   "entry level".data, "entry-level".data, "no experience".data, "fresh graduate".data,
   "recent graduate".data, "freshers only".data, "0 years".data]

def overLevelTitles : List Str :=
  ["director".data, "vice president".data, "vp ".data, "vp,".data, "chief ".data,
   "head of".data, "cto".data, "cfo".data, "coo".data, "ceo".data, "managing director".data,
   "general manager".data, "avp".data, "assistant vice president".data]

def minSkillTokenLen : Nat := 4

/-- Counter-signals checked inside `_is_fresher_only` (scorer.py line 72). -/
def experienceCounterSignals : List Str :=
  ["senior".data, "experience".data, "8+".data, "10+".data, "years exp".data,
   "l3".data, "l4".data]

/-- Seniority vocabulary of `score_job` (scorer.py lines 199–200). -/
def seniorityTerms : List Str :=
  ["senior".data, "lead".data, "principal".data, "l3".data, "l4".data, "staff".data,
   "10+".data, "8+".data, "5+".data, "experience".data, "mid-level".data,
   "mid level".data, "experienced".data]

/-- Salary marker terms of `score_job` (scorer.py line 219). -/
def salaryMarkers : List Str :=
  ["lpa".data, "lakh".data, "salary".data, "ctc".data, "inr".data]

/-! ## Scorer functions (`src/scorer.py`) -/

/-- `_expand_locations` (lines 43–51). -/
def expandLocations (locations : List Str) : List Str :=
  (locations.map (fun loc =>
    let key := pyStrip (pyLower loc)
    match locationAliases.find? (fun kv => kv.1 == key) with
    | some kv => kv.2
    | none => [key])).flatten

/-- `_expand_skills` (lines 54–65): the lowercased skill itself plus each
regex match (stripped) that is nonempty, differs from the whole, and has
length ≥ 4; first-occurrence deduplicated. -/
def expandSkills (rawSkills : List Str) : List Str :=
  pyDedup ((rawSkills.map (fun s =>
    let low := pyLower s
    low :: ((findTokens low.length low).map pyStrip).filter
      (fun part => !part.isEmpty && part != low &&
        decide (minSkillTokenLen ≤ part.length)))).flatten)

/-- `_is_fresher_only` (lines 68–75). -/
def isFresherOnly (desc title : Option Str) : Bool :=
  let text := pyNormalize desc ++ ' ' :: pyNormalize title
  fresherPhrases.any (fun phrase =>
    isSubstr phrase text &&
      !(experienceCounterSignals.any (fun x => isSubstr x text)))

/-- `_is_over_level` (lines 78–83). -/
def isOverLevel (title : Option Str) (profileLevel : Str) : Bool :=
  if profileLevel = "junior".data ∨ profileLevel = "intermediate".data ∨
      profileLevel = "senior".data then
    overLevelTitles.any (fun tag => isSubstr tag (pyNormalize title))
  else false

/-- `_word_overlap_ratio` (lines 86–99): fraction of the role's distinct
words appearing among the text's words; zero unless at least two words
overlap when the role has more than one word. -/
def wordOverlapRatio (role text : Str) : ℚ :=
  let roleWords := pyDedup (pySplit (pyLower role))
  let textWords := pyDedup (pySplit (pyLower text))
  let overlap := roleWords.filter (fun w => w ∈ textWords)
  if overlap.length < 2 ∧ 1 < roleWords.length then 0
  else if roleWords.length = 0 then 0
  else (overlap.length : ℚ) / (roleWords.length : ℚ)

/-- One iteration of the core-roles loop of `_best_role_match`
(lines 124–135).  The accumulator is `(best_score, best_role, best_tier)`. -/
def coreStep (titleNorm descNorm : Str) (b : ℚ × Str × Str) (roleRaw : Str) :
    ℚ × Str × Str :=
  let role := pyLower roleRaw
  if isSubstr role titleNorm then
    (if (0.40 : ℚ) > b.1 then ((0.40 : ℚ), roleRaw, "core".data) else b)
  else if wordOverlapRatio role titleNorm ≥ (0.6 : ℚ) ∧ (0.35 : ℚ) > b.1 then
    ((0.35 : ℚ), roleRaw, "core".data)
  else if isSubstr role descNorm ∧ (0.15 : ℚ) > b.1 then
    ((0.15 : ℚ), roleRaw, "core".data)
  else b

/-- One iteration of the stretch-roles loop of `_best_role_match`
(lines 137–148). -/
def stretchStep (titleNorm descNorm : Str) (b : ℚ × Str × Str) (roleRaw : Str) :
    ℚ × Str × Str :=
  let role := pyLower roleRaw
  if isSubstr role titleNorm then
    (if (0.20 : ℚ) > b.1 then ((0.20 : ℚ), roleRaw, "stretch".data) else b)
  else if wordOverlapRatio role titleNorm ≥ (0.6 : ℚ) ∧ (0.18 : ℚ) > b.1 then
    ((0.18 : ℚ), roleRaw, "stretch".data)
  else if isSubstr role descNorm ∧ (0.08 : ℚ) > b.1 then
    ((0.08 : ℚ), roleRaw, "stretch".data)
  else b

/-- `_best_role_match` (lines 102–150). -/
def bestRoleMatch (title desc : Option Str) (coreRoles stretchRoles : List Str) :
    ℚ × Str × Str :=
  let titleNorm := pyNormalize title
  let descNorm := pyNormalize desc
  stretchRoles.foldl (stretchStep titleNorm descNorm)
    (coreRoles.foldl (coreStep titleNorm descNorm) ((0 : ℚ), ([] : Str), ([] : Str)))

/-- Round to the nearest integer, ties to even (Python's rounding mode). -/
def roundHalfEven (x : ℚ) : ℤ :=
  if x - ⌊x⌋ > 1/2 then ⌊x⌋ + 1
  else if x - ⌊x⌋ < 1/2 then ⌊x⌋
  else if ⌊x⌋ % 2 = 0 then ⌊x⌋ else ⌊x⌋ + 1

/-- Python `round(q, 2)`: round to a multiple of 1/100, ties to even. -/
def round2 (q : ℚ) : ℚ := (roundHalfEven (q * 100) : ℚ) / 100

/-! Named intermediate values of `score_job` (lines 153–257); `scoreJob`
below assembles them exactly as the source does. -/

/-- `full_text = desc + " " + title_norm` (line 158); also the text
scanned by `_is_fresher_only` (line 69). -/
def fullTextOf (j : Job) : Str :=
  pyNormalize j.description ++ ' ' :: pyNormalize j.title

/-- `_best_role_match(job.title, job.description, core_roles, stretch_roles)`
(lines 181–183). -/
def roleBestOf (j : Job) (p : Profile) : ℚ × Str × Str :=
  bestRoleMatch j.title j.description p.core_roles p.stretch_roles

/-- `unique_matched` (lines 189–190): profile skills found in `full_text`,
deduplicated (they already are, coming from `_expand_skills`). -/
def uniqueMatchedOf (j : Job) (p : Profile) : List Str :=
  pyDedup ((expandSkills p.skills).filter (fun s => isSubstr s (fullTextOf j)))

/-- First seniority term contained in `full_text` (lines 198–206). -/
def senTermOf (j : Job) : Option Str :=
  seniorityTerms.find? (fun t => isSubstr t (fullTextOf j))

def hasSeniorityOf (j : Job) : Bool := (senTermOf j).isSome

/-- `has_location` (lines 209–210). -/
def hasLocationOf (j : Job) (p : Profile) : Bool :=
  (expandLocations p.locations).any (fun a => isSubstr a (pyNormalize j.location))

/-- The guard under which the salary comparison runs (lines 218–220):
`compare_only_when_listed`, both bounds present, and a salary marker in
`full_text`.  When it holds and `job.description` is `None`, the source
raises (`re.findall(r"\d+", None)`, line 221). -/
def salaryTriggered (j : Job) (p : Profile) : Bool :=
  p.compare_only_when_listed && p.salary_min.isSome && p.salary_max.isSome &&
    salaryMarkers.any (fun m => isSubstr m (fullTextOf j))

/-- `has_salary` (lines 215–229) for a job whose description is present:
some integer token of the raw description lies in `[min, max]`. -/
def hasSalaryOf (j : Job) (p : Profile) : Bool :=
  salaryTriggered j p &&
    (digitRuns (j.description.getD [])).any (fun r =>
      decide (p.salary_min.getD 0 ≤ (digitVal r : ℚ)) &&
        decide ((digitVal r : ℚ) ≤ p.salary_max.getD 0))

/-- The additive total of lines 232–244, bonus included. -/
def rawTotalOf (j : Job) (p : Profile) : ℚ :=
  (roleBestOf j p).1
    + min ((0.05 : ℚ) * ((uniqueMatchedOf j p).length : ℚ)) (0.25 : ℚ)
    + (if hasSeniorityOf j then (0.10 : ℚ) else 0)
    + (if hasLocationOf j p then (0.15 : ℚ) else 0)
    + (if hasSalaryOf j p then (0.10 : ℚ) else 0)
    + (if 3 ≤ (uniqueMatchedOf j p).length ∧ (roleBestOf j p).2.2 = "core".data
        then (0.05 : ℚ) else 0)

/-- `score = min(score, 1.0)` (line 246). -/
def cappedOf (j : Job) (p : Profile) : ℚ := min (rawTotalOf j p) 1

/-- `unique_matched or core_roles or stretch_roles` (line 249). -/
def weakSignalOf (j : Job) (p : Profile) : Bool :=
  !(uniqueMatchedOf j p).isEmpty || !p.core_roles.isEmpty ||
    !p.stretch_roles.isEmpty

/-- Lines 248–250: floor a zero capped total to 0.10 when a weak signal
exists. -/
def finalScoreOf (j : Job) (p : Profile) : ℚ :=
  if cappedOf j p = 0 ∧ weakSignalOf j p = true then (0.10 : ℚ)
  else cappedOf j p

/-- `match_reasons`, assembled in source order: role label (lines 184–186),
up to five skill reasons (191–192), strong-overlap (193–194), seniority
(198–206), location (211–212), salary (225). -/
def reasonsOf (j : Job) (p : Profile) : List Str :=
  (if (roleBestOf j p).2.1 ≠ [] then
    ["Role match (".data ++ (roleBestOf j p).2.2 ++ "): ".data ++ (roleBestOf j p).2.1]
  else [])
  ++ ((uniqueMatchedOf j p).take 5).map (fun s => "Skill: ".data ++ s)
  ++ (if 3 ≤ (uniqueMatchedOf j p).length then ["Strong skill overlap".data] else [])
  ++ (if hasSeniorityOf j then ["Seniority level fit".data] else [])
  ++ (if hasLocationOf j p then ["Location match".data] else [])
  ++ (if hasSalaryOf j p then ["Salary in range (listed)".data] else [])

/-- `keyword_suggestions` (lines 195, 204–205, 256): the matched skills,
then the seniority term if new, deduplicated and capped at 10. -/
def keywordsOf (j : Job) (p : Profile) : List Str :=
  let km := uniqueMatchedOf j p
  let k2 := match senTermOf j with
    | some t => if t ∈ km then km else km ++ [t]
    | none => km
  (pyDedup k2).take 10

/-- `score_job` (lines 153–257).  `none` models the `TypeError` raised at
line 221 when the salary comparison is reached with `description = None`;
every other path returns a `ScoredJob` as the source does. -/
def scoreJob (job : Job) (profile : Profile) : Option ScoredJob :=
  if isFresherOnly job.description job.title then
    some ⟨job, 0, [], []⟩
  else if isOverLevel job.title profile.level then
    some ⟨job, 0, ["Filtered: seniority above profile level".data], []⟩
  else if salaryTriggered job profile ∧ job.description = none then
    none
  else
    some ⟨job, round2 (finalScoreOf job profile), reasonsOf job profile,
      keywordsOf job profile⟩

/-! ## Aggregation step of `run` (`src/agent.py` lines 67–91) -/

/-- The dedup loop body: add each job whose `id` is unseen (lines 76–80,
also reused for the fallback loop at 87–90). -/
def dedupMergeAux : List Str → List Job → List Job → List Str × List Job
  | seen, acc, [] => (seen, acc)
  | seen, acc, j :: t =>
    if j.id ∈ seen then dedupMergeAux seen acc t
    else dedupMergeAux (j.id :: seen) (acc ++ [j]) t

/-- State after merging all source results in arrival order. -/
def mergedStateOf (results : List (List Job)) : List Str × List Job :=
  results.foldl (fun sa res => dedupMergeAux sa.1 sa.2 res) ([], [])

/-- `all_jobs` after the parallel merge (line 82). -/
def mergedOf (results : List (List Job)) : List Job := (mergedStateOf results).2

/-- Lines 67–91 of `run`: merge/dedup all source results (in completion
order, abstracted as the order of `results`), fall back to the mock
source's jobs iff nothing was merged, then truncate to `max_jobs`.
The returned flag records whether the fallback branch ran. -/
def aggregateRun (results : List (List Job)) (fallbackJobs : List Job)
    (maxJobs : Nat) : Bool × List Job :=
  let st := mergedStateOf results
  let usedFallback := st.2.isEmpty
  let st2 := if st.2.isEmpty then dedupMergeAux st.1 st.2 fallbackJobs else st
  (usedFallback, st2.2.take maxJobs)

/-! ## Spec-side reading of the role-matching hierarchy (claim C1)

These definitions follow the specification's words, to be compared with
`bestRoleMatch` (which follows the source): each role is assigned its
single strongest match value, and the winner is the first maximum of the
candidate list ordered core-tier first, earlier-listed roles first. -/

/-- Strongest match value of one core role, per the spec: exact substring
in the title 0.40, else word-overlap ≥ 60 % with the title 0.35, else
exact substring in the description 0.15, else no match. -/
def specCoreValue (titleNorm descNorm : Str) (roleRaw : Str) : ℚ :=
  if isSubstr (pyLower roleRaw) titleNorm then (0.40 : ℚ)
  else if wordOverlapRatio (pyLower roleRaw) titleNorm ≥ (0.6 : ℚ) then (0.35 : ℚ)
  else if isSubstr (pyLower roleRaw) descNorm then (0.15 : ℚ)
  else 0

/-- Strongest match value of one stretch role, per the spec:
0.20 / 0.18 / 0.08. -/
def specStretchValue (titleNorm descNorm : Str) (roleRaw : Str) : ℚ :=
  if isSubstr (pyLower roleRaw) titleNorm then (0.20 : ℚ)
  else if wordOverlapRatio (pyLower roleRaw) titleNorm ≥ (0.6 : ℚ) then (0.18 : ℚ)
  else if isSubstr (pyLower roleRaw) descNorm then (0.08 : ℚ)
  else 0

/-- First-strict-maximum step: a later candidate wins only with a strictly
larger value, so ties favor the earlier candidate. -/
def specStep (b c : ℚ × Str × Str) : ℚ × Str × Str := if c.1 > b.1 then c else b

/-- All role candidates in priority order: core roles (in list order),
then stretch roles, each tagged with its value and tier. -/
def specCandidates (titleNorm descNorm : Str) (coreRoles stretchRoles : List Str) :
    List (ℚ × Str × Str) :=
  coreRoles.map (fun r => (specCoreValue titleNorm descNorm r, r, "core".data))
    ++ stretchRoles.map (fun r => (specStretchValue titleNorm descNorm r, r, "stretch".data))

/-- The spec's reading of role matching: the first maximum over all
candidates, `(0, "", "")` when nothing matches. -/
def specBestRole (title desc : Option Str) (coreRoles stretchRoles : List Str) :
    ℚ × Str × Str :=
  (specCandidates (pyNormalize title) (pyNormalize desc) coreRoles stretchRoles).foldl
    specStep ((0 : ℚ), ([] : Str), ([] : Str))

/-! ## Concrete inputs used by the theorems below -/

/-- The end-to-end scenario job of spec §8 (claim C3). -/
def c3job : Job :=
  { id := "j1".data, title := some "Senior Site Reliability Engineer".data,
    company := some "Acme".data, location := some "Bangalore, India".data,
    url := some "https://jobs/1".data,
    description := some "Kubernetes, Python, 8+ years, incident response".data }

/-- The end-to-end scenario profile of spec §8 (claim C3). -/
def c3profile : Profile :=
  { skills := ["Kubernetes".data, "Python".data], level := "senior".data,
    core_roles := ["Site Reliability Engineer".data], stretch_roles := [],
    locations := ["Bangalore".data], salary_min := none, salary_max := none,
    compare_only_when_listed := true }

/-- The example job of claim C2: its description contains "no experience",
hence the counter-signal "experience". -/
def c2job : Job :=
  { id := "j2".data, title := some "Fresher Software Engineer".data,
    company := none, location := none, url := none,
    description := some "0-2 years, no experience needed".data }

/-- A profile with no roles, skills or locations configured. -/
def emptyProfile : Profile :=
  { skills := [], level := "senior".data, core_roles := [], stretch_roles := [],
    locations := [], salary_min := none, salary_max := none,
    compare_only_when_listed := true }

/-- A job with no signal at all against `emptyProfile` (claim C5). -/
def c5job : Job :=
  { id := "j5".data, title := some "Plumber".data, company := none,
    location := some "".data, url := none, description := some "fix pipes".data }

/-- Profile for the monotonicity counterexample (claim C6): roles are
configured but unmatched, so the 0.10 floor applies before the skill
token is added. -/
def c6profile : Profile :=
  { skills := ["python".data], level := "senior".data,
    core_roles := ["architect".data], stretch_roles := [], locations := [],
    salary_min := none, salary_max := none, compare_only_when_listed := true }

/-- Base job of the monotonicity counterexample (claim C6). -/
def c6job : Job :=
  { id := "j6".data, title := some "Plumber".data, company := none,
    location := some "".data, url := none, description := some "fix pipes".data }

/-- The added matched-skill token of the counterexample. -/
def c6tok : Str := "python".data

/-- `c6job` with the matched skill token added to its text. -/
def c6job' : Job := { c6job with description := some (c6tok ++ ' ' :: "fix pipes".data) }

/-- Failing input of claim C8: description `None`, salary bounds set, and
the marker "salary" in the title, reaching `re.findall(r"\d+", None)`. -/
def c8job : Job :=
  { id := "j8".data, title := some "Salary Engineer".data, company := none,
    location := none, url := none, description := none }

/-- Profile with both salary bounds configured (claim C8). -/
def c8profile : Profile :=
  { skills := [], level := "senior".data, core_roles := [], stretch_roles := [],
    locations := [], salary_min := some 10, salary_max := some 30,
    compare_only_when_listed := true }

/-- A genuinely fresher-only job: marker "fresher", no counter-signal. -/
def freshJob : Job :=
  { id := "j9".data, title := some "Fresher role".data, company := none,
    location := none, url := none, description := some "apply now".data }

/-! ## Theorems -/

/-- C3: for the §8 end-to-end scenario profile and job, `score_job`
returns score 0.75 with exactly the expected match reasons
(role match, two skills, seniority, location). -/
theorem C3_end_to_end_scenario :
    scoreJob c3job c3profile =
      some { job := c3job, score := (0.75 : ℚ),
             match_reasons :=
               ["Role match (core): Site Reliability Engineer".data,
                "Skill: kubernetes".data, "Skill: python".data,
                "Seniority level fit".data, "Location match".data],
             keyword_suggestions :=
               ["kubernetes".data, "python".data, "senior".data] } := by
  decide

/-- C7 (code bug): `_expand_skills` does not split compound skills on
whitespace or hyphens — the regex `[a-z0-9]+(?:[\s-][a-z0-9]+)*` matches a
space- or hyphen-joined compound whole, so "machine learning" yields no
sub-tokens "machine" / "learning" (contrary to the spec and the
function's own docstring), while a dot-separated skill like "node.js"
does yield the sub-token "node". -/
theorem C7_expand_skills_no_whitespace_split :
    expandSkills ["machine learning".data] = ["machine learning".data] ∧
      "machine".data ∉ expandSkills ["machine learning".data] ∧
      "learning".data ∉ expandSkills ["machine learning".data] ∧
      expandSkills ["node.js".data] = ["node.js".data, "node".data] := by
  decide

/-- C8 (code bug): with `description = None`, salary bounds configured and
the marker "salary" appearing in the title, `score_job` reaches
`re.findall(r"\d+", None)` and raises (modelled as `none`) instead of
treating the missing description as the empty string. -/
theorem C8_raises_on_missing_description :
    scoreJob c8job c8profile = none ∧ salaryTriggered c8job c8profile = true := by
  decide

/-- C10: `score_job` reads no ambient state and uses no randomness, so
equal jobs and equal profiles yield identical results — same score, same
match reasons in the same order, same keyword suggestions. -/
theorem C10_deterministic :
    ∀ (j1 j2 : Job) (p1 p2 : Profile),
      j1 = j2 → p1 = p2 → scoreJob j1 p1 = scoreJob j2 p2 := by
  intro j1 j2 p1 p2 h1 h2
  rw [h1, h2]

/-- Witness for C10 at a concrete input. -/
theorem C10_deterministic_witness :
    scoreJob c6job c6profile = scoreJob c6job c6profile :=
  C10_deterministic c6job c6job c6profile c6profile rfl rfl

/-- C2 counterexample: the claim's own example job (title "Fresher
Software Engineer", description "0-2 years, no experience needed") is NOT
scored 0.0 with empty reasons: "no experience" contains the counter-signal
"experience", so the fresher filter does not trigger and the job scores
0.10 with reason "Seniority level fit". -/
theorem C2_example_not_filtered :
    scoreJob c2job emptyProfile =
      some { job := c2job, score := (0.10 : ℚ),
             match_reasons := ["Seniority level fit".data],
             keyword_suggestions := ["experience".data] } ∧
      isFresherOnly c2job.description c2job.title = false ∧
      (0.10 : ℚ) ≠ 0 := by
  decide

/-- C5 counterexample: a job with no weak signal at all (no roles or
skills configured) gets score 0.0 with empty `match_reasons` without
being hard-filtered, so a zero score with empty reasons does not occur
only for hard-filtered jobs. -/
theorem C5_zero_without_filter :
    scoreJob c5job emptyProfile =
      some { job := c5job, score := 0, match_reasons := [],
             keyword_suggestions := [] } ∧
      isFresherOnly c5job.description c5job.title = false ∧
      isOverLevel c5job.title emptyProfile.level = false := by
  decide

/-- C6 counterexample: adding one more matched skill token ("python",
well below the 0.25 cap) to the job's text DECREASES the score from 0.10
to 0.05, because the base job was held at the 0.10 weak-signal floor and
the added skill lifts the total to 0.05 ≠ 0, disabling the floor. -/
theorem C6_floor_breaks_monotonicity :
    scoreJob c6job c6profile =
      some { job := c6job, score := (0.10 : ℚ), match_reasons := [],
             keyword_suggestions := [] } ∧
      scoreJob c6job' c6profile =
      some { job := c6job', score := (0.05 : ℚ),
             match_reasons := ["Skill: python".data],
             keyword_suggestions := ["python".data] } ∧
      (0.05 : ℚ) < (0.10 : ℚ) ∧
      c6tok ∈ expandSkills c6profile.skills ∧
      (uniqueMatchedOf c6job' c6profile).length = 1 := by
  decide

/-- C2 (amended): for every Job whose combined description+title text
contains a fresher-only marker phrase and contains no senior/experience
counter-signal, `score_job` returns score 0.0 with empty `match_reasons`
regardless of the other fields; the claim's particular example job is NOT
such a job — "no experience needed" contains the counter-signal
"experience" — and instead scores 0.10 with reason "Seniority level fit". -/
theorem C2_fresher_filter_amended :
    (∀ (j : Job) (p : Profile),
        (∃ ph ∈ fresherPhrases, isSubstr ph (fullTextOf j) = true) →
        (∀ cs ∈ experienceCounterSignals, isSubstr cs (fullTextOf j) = false) →
        scoreJob j p =
          some { job := j, score := 0, match_reasons := [],
                 keyword_suggestions := [] })
    ∧ scoreJob c2job emptyProfile =
        some { job := c2job, score := (0.10 : ℚ),
               match_reasons := ["Seniority level fit".data],
               keyword_suggestions := ["experience".data] } := by
  constructor
  · intro j p hph hcs
    have hf : isFresherOnly j.description j.title = true := by
      unfold isFresherOnly
      rw [List.any_eq_true]
      obtain ⟨ph, hmem, hsub⟩ := hph
      refine ⟨ph, hmem, ?_⟩
      rw [Bool.and_eq_true]
      constructor
      · simpa [fullTextOf] using hsub
      · rw [Bool.not_eq_true', List.any_eq_false]
        intro cs hcsmem
        simpa [fullTextOf] using hcs cs hcsmem
    simp [scoreJob, hf]
  · decide

/-- Witness for the universal part of C2 at a concrete fresher-only job. -/
theorem C2_fresher_filter_witness :
    scoreJob freshJob c3profile =
      some { job := freshJob, score := 0, match_reasons := [],
             keyword_suggestions := [] } :=
  C2_fresher_filter_amended.1 freshJob c3profile
    ⟨"fresher".data, by decide, by decide⟩ (by decide)

/-- The dedup loop never shrinks its accumulator: a nonempty `all_jobs`
stays nonempty. -/
lemma dedupMergeAux_acc_ne :
    ∀ (l : List Job) (seen : List Str) (acc : List Job),
      acc ≠ [] → (dedupMergeAux seen acc l).2 ≠ [] := by
  intro l
  induction l with
  | nil => intro seen acc h; simpa [dedupMergeAux] using h
  | cons j t ih =>
    intro seen acc h
    unfold dedupMergeAux
    split
    · exact ih _ _ h
    · exact ih _ _ (by simp)

/-- Folding further source results over a nonempty merged state keeps it
nonempty. -/
lemma mergedFold_ne :
    ∀ (results : List (List Job)) (s : List Str × List Job), s.2 ≠ [] →
      (results.foldl (fun sa res => dedupMergeAux sa.1 sa.2 res) s).2 ≠ [] := by
  intro results
  induction results with
  | nil => intro s h; simpa using h
  | cons r rest ih =>
    intro s h
    exact ih _ (dedupMergeAux_acc_ne r s.1 s.2 h)

/-- The merged, deduplicated list is empty iff every source returned
nothing. -/
lemma mergedOf_empty_iff (results : List (List Job)) :
    mergedOf results = [] ↔ ∀ l ∈ results, l = [] := by
  unfold mergedOf mergedStateOf
  induction results with
  | nil => simp
  | cons r rest ih =>
    simp only [List.foldl_cons]
    cases r with
    | nil =>
      simpa [dedupMergeAux] using ih
    | cons j t =>
      have h1 : (dedupMergeAux [] [] (j :: t)).2 ≠ [] := by
        unfold dedupMergeAux
        split
        · simp_all
        · exact dedupMergeAux_acc_ne t _ _ (by simp)
      constructor
      · intro h
        exact absurd h (mergedFold_ne rest _ h1)
      · intro h
        exact absurd (h (j :: t) (by simp)) (by simp)

/-- C9: in the aggregation step of `run`, the mock fallback is invoked iff
the merged, deduplicated result of all sources is empty (equivalently, iff
every source returned no jobs), and the final list is the merge (with the
fallback's jobs deduplicated in when the merge was empty) truncated to at
most `max_jobs` elements after the fallback is applied. -/
theorem C9_fallback_iff_empty :
    ∀ (results : List (List Job)) (fallbackJobs : List Job) (maxJobs : Nat),
      ((aggregateRun results fallbackJobs maxJobs).1 = true ↔ mergedOf results = [])
      ∧ (mergedOf results = [] ↔ ∀ l ∈ results, l = [])
      ∧ (aggregateRun results fallbackJobs maxJobs).2 =
          (if mergedOf results = []
           then (dedupMergeAux (mergedStateOf results).1 (mergedStateOf results).2
                  fallbackJobs).2
           else mergedOf results).take maxJobs
      ∧ (aggregateRun results fallbackJobs maxJobs).2.length ≤ maxJobs := by
  intro results fallbackJobs maxJobs
  refine ⟨?_, mergedOf_empty_iff results, ?_, ?_⟩
  · simp [aggregateRun, mergedOf, List.isEmpty_iff]
  · by_cases h : (mergedStateOf results).2 = []
    · simp [aggregateRun, mergedOf, h]
    · simp [aggregateRun, mergedOf, h, List.isEmpty_iff]
  · by_cases h : (mergedStateOf results).2 = []
    · simp [aggregateRun, mergedOf, h, List.length_take_le]
    · simp [aggregateRun, mergedOf, h, List.isEmpty_iff, List.length_take_le]

/-! ## Rounding lemmas -/

lemma roundHalfEven_mono {x y : ℚ} (h : x ≤ y) :
    roundHalfEven x ≤ roundHalfEven y := by
  unfold roundHalfEven
  have hf : ⌊x⌋ ≤ ⌊y⌋ := Int.floor_le_floor h
  rcases eq_or_lt_of_le hf with heq | hlt
  · rw [← heq]
    split_ifs <;> first | omega | linarith
  · split_ifs <;> omega

lemma round2_mono {x y : ℚ} (h : x ≤ y) : round2 x ≤ round2 y := by
  unfold round2
  have h1 : roundHalfEven (x * 100) ≤ roundHalfEven (y * 100) :=
    roundHalfEven_mono (by linarith)
  have h2 : ((roundHalfEven (x * 100) : ℤ) : ℚ) ≤ ((roundHalfEven (y * 100) : ℤ) : ℚ) := by
    exact_mod_cast h1
  linarith

lemma round2_zero : round2 0 = 0 := by decide

lemma round2_one : round2 1 = 1 := by decide

lemma round2_nonneg {q : ℚ} (h : 0 ≤ q) : 0 ≤ round2 q := by
  have := round2_mono h
  rwa [round2_zero] at this

lemma round2_le_one {q : ℚ} (h : q ≤ 1) : round2 q ≤ 1 := by
  have := round2_mono h
  rwa [round2_one] at this

lemma round2_idem (q : ℚ) : round2 (round2 q) = round2 q := by
  unfold round2
  have h1 : ((roundHalfEven (q * 100) : ℤ) : ℚ) / 100 * 100 =
      ((roundHalfEven (q * 100) : ℤ) : ℚ) := by
    field_simp
  rw [h1]
  have h2 : roundHalfEven ((roundHalfEven (q * 100) : ℤ) : ℚ) =
      roundHalfEven (q * 100) := by
    unfold roundHalfEven
    rw [Int.floor_intCast]
    norm_num
  rw [h2]

/-! ## Bounds on the additive score -/

lemma coreStep_fst_ge (tn dn : Str) (b : ℚ × Str × Str) (r : Str) :
    b.1 ≤ (coreStep tn dn b r).1 := by
  unfold coreStep
  by_cases h1 : isSubstr (pyLower r) tn = true
  · simp only [h1, if_true]
    split_ifs with h2
    · simp only []
      linarith
    · exact le_refl _
  · simp only [h1, if_false, Bool.false_eq_true]
    split_ifs with h2 h3
    · simp only []
      linarith [h2.2]
    · simp only []
      linarith [h3.2]
    · exact le_refl _

lemma stretchStep_fst_ge (tn dn : Str) (b : ℚ × Str × Str) (r : Str) :
    b.1 ≤ (stretchStep tn dn b r).1 := by
  unfold stretchStep
  by_cases h1 : isSubstr (pyLower r) tn = true
  · simp only [h1, if_true]
    split_ifs with h2
    · simp only []
      linarith
    · exact le_refl _
  · simp only [h1, if_false, Bool.false_eq_true]
    split_ifs with h2 h3
    · simp only []
      linarith [h2.2]
    · simp only []
      linarith [h3.2]
    · exact le_refl _

lemma foldl_step_fst_ge (step : (ℚ × Str × Str) → Str → (ℚ × Str × Str))
    (hstep : ∀ b r, b.1 ≤ (step b r).1) :
    ∀ (l : List Str) (b : ℚ × Str × Str), b.1 ≤ (l.foldl step b).1 := by
  intro l
  induction l with
  | nil => intro b; simp
  | cons r t ih => intro b; exact le_trans (hstep b r) (ih (step b r))

lemma roleBest_fst_nonneg (title desc : Option Str) (cs ss : List Str) :
    0 ≤ (bestRoleMatch title desc cs ss).1 := by
  show (0 : ℚ) ≤ (List.foldl (stretchStep (pyNormalize title) (pyNormalize desc))
    (List.foldl (coreStep (pyNormalize title) (pyNormalize desc))
      ((0 : ℚ), ([] : Str), ([] : Str)) cs) ss).1
  exact le_trans
    (foldl_step_fst_ge _ (coreStep_fst_ge (pyNormalize title) (pyNormalize desc)) cs
      ((0 : ℚ), ([] : Str), ([] : Str)))
    (foldl_step_fst_ge _ (stretchStep_fst_ge (pyNormalize title) (pyNormalize desc)) ss _)

lemma rawTotal_nonneg (j : Job) (p : Profile) : 0 ≤ rawTotalOf j p := by
  unfold rawTotalOf
  have h1 : 0 ≤ (roleBestOf j p).1 := roleBest_fst_nonneg _ _ _ _
  have h2 : 0 ≤ min ((0.05 : ℚ) * ((uniqueMatchedOf j p).length : ℚ)) (0.25 : ℚ) :=
    le_min (by positivity) (by norm_num)
  split_ifs <;> linarith

lemma capped_nonneg (j : Job) (p : Profile) : 0 ≤ cappedOf j p :=
  le_min (rawTotal_nonneg j p) (by norm_num)

lemma capped_le_one (j : Job) (p : Profile) : cappedOf j p ≤ 1 :=
  min_le_right _ _

lemma final_nonneg (j : Job) (p : Profile) : 0 ≤ finalScoreOf j p := by
  unfold finalScoreOf
  split_ifs
  · norm_num
  · exact capped_nonneg j p

lemma final_le_one (j : Job) (p : Profile) : finalScoreOf j p ≤ 1 := by
  unfold finalScoreOf
  split_ifs
  · norm_num
  · exact capped_le_one j p

/-- C4: whenever `score_job` returns, the score lies in [0, 1] and equals
its own rounding to two decimal places. -/
theorem C4_score_bounds :
    ∀ (j : Job) (p : Profile) (sj : ScoredJob), scoreJob j p = some sj →
      0 ≤ sj.score ∧ sj.score ≤ 1 ∧ round2 sj.score = sj.score := by
  intro j p sj h
  unfold scoreJob at h
  split_ifs at h with h1 h2 h3
  · injection h with h4
    rw [← h4]
    exact ⟨le_refl 0, by norm_num, round2_zero⟩
  · injection h with h4
    rw [← h4]
    exact ⟨le_refl 0, by norm_num, round2_zero⟩
  · injection h with h4
    rw [← h4]
    exact ⟨round2_nonneg (final_nonneg j p), round2_le_one (final_le_one j p),
      round2_idem _⟩

/-- Witness for C4 at a concrete input. -/
theorem C4_score_bounds_witness :
    (0 : ℚ) ≤ 0 ∧ (0 : ℚ) ≤ 1 ∧ round2 0 = 0 :=
  C4_score_bounds c5job emptyProfile
    { job := c5job, score := 0, match_reasons := [], keyword_suggestions := [] }
    (by decide)

/-! ## The role-matching fold equals the spec's first-maximum fold -/

lemma specStep_fst (b c : ℚ × Str × Str) : (specStep b c).1 = max b.1 c.1 := by
  unfold specStep
  split_ifs with h
  · exact (max_eq_right (le_of_lt h)).symm
  · exact (max_eq_left (not_lt.mp h)).symm

lemma foldl_specStep_fst_ge :
    ∀ (L : List (ℚ × Str × Str)) (b : ℚ × Str × Str),
      b.1 ≤ (L.foldl specStep b).1 := by
  intro L
  induction L with
  | nil => intro b; simp
  | cons c t ih =>
    intro b
    refine le_trans ?_ (ih (specStep b c))
    rw [specStep_fst]
    exact le_max_left _ _

lemma coreStep_eq_specStep (tn dn : Str) (b : ℚ × Str × Str) (r : Str)
    (hb : 0 ≤ b.1) :
    coreStep tn dn b r = specStep b (specCoreValue tn dn r, r, "core".data) := by
  unfold coreStep specStep specCoreValue
  by_cases h1 : isSubstr (pyLower r) tn = true
  · simp [h1]
  · simp only [h1, Bool.false_eq_true, if_false]
    by_cases h2 : wordOverlapRatio (pyLower r) tn ≥ (0.6 : ℚ)
    · by_cases h3 : (0.35 : ℚ) > b.1
      · simp [h2, h3]
      · have h4 : ¬((0.15 : ℚ) > b.1) := by
          have := not_lt.mp h3
          intro hc
          linarith
        simp [h2, h3, h4]
    · by_cases h5 : isSubstr (pyLower r) dn = true
      · by_cases h6 : (0.15 : ℚ) > b.1 <;> simp [h2, h5, h6]
      · have h7 : ¬(b.1 < 0) := not_lt.mpr hb
        simp [h2, h5, h7]

lemma stretchStep_eq_specStep (tn dn : Str) (b : ℚ × Str × Str) (r : Str)
    (hb : 0 ≤ b.1) :
    stretchStep tn dn b r = specStep b (specStretchValue tn dn r, r, "stretch".data) := by
  unfold stretchStep specStep specStretchValue
  by_cases h1 : isSubstr (pyLower r) tn = true
  · simp [h1]
  · simp only [h1, Bool.false_eq_true, if_false]
    by_cases h2 : wordOverlapRatio (pyLower r) tn ≥ (0.6 : ℚ)
    · by_cases h3 : (0.18 : ℚ) > b.1
      · simp [h2, h3]
      · have h4 : ¬((0.08 : ℚ) > b.1) := by
          have := not_lt.mp h3
          intro hc
          linarith
        simp [h2, h3, h4]
    · by_cases h5 : isSubstr (pyLower r) dn = true
      · by_cases h6 : (0.08 : ℚ) > b.1 <;> simp [h2, h5, h6]
      · have h7 : ¬(b.1 < 0) := not_lt.mpr hb
        simp [h2, h5, h7]

lemma foldl_core_spec (tn dn : Str) :
    ∀ (cs : List Str) (b : ℚ × Str × Str), 0 ≤ b.1 →
      cs.foldl (coreStep tn dn) b =
        (cs.map (fun r => (specCoreValue tn dn r, r, "core".data))).foldl specStep b := by
  intro cs
  induction cs with
  | nil => intro b _; rfl
  | cons r t ih =>
    intro b hb
    simp only [List.foldl_cons, List.map_cons]
    rw [coreStep_eq_specStep tn dn b r hb]
    refine ih _ ?_
    rw [specStep_fst]
    exact le_trans hb (le_max_left _ _)

lemma foldl_stretch_spec (tn dn : Str) :
    ∀ (ss : List Str) (b : ℚ × Str × Str), 0 ≤ b.1 →
      ss.foldl (stretchStep tn dn) b =
        (ss.map (fun r => (specStretchValue tn dn r, r, "stretch".data))).foldl specStep b := by
  intro ss
  induction ss with
  | nil => intro b _; rfl
  | cons r t ih =>
    intro b hb
    simp only [List.foldl_cons, List.map_cons]
    rw [stretchStep_eq_specStep tn dn b r hb]
    refine ih _ ?_
    rw [specStep_fst]
    exact le_trans hb (le_max_left _ _)

/-- `_best_role_match` computes exactly the spec's first-maximum over the
priority-ordered candidates. -/
lemma bestRoleMatch_eq_spec (title desc : Option Str) (cs ss : List Str) :
    bestRoleMatch title desc cs ss = specBestRole title desc cs ss := by
  unfold bestRoleMatch specBestRole specCandidates
  rw [List.foldl_append]
  show List.foldl (stretchStep (pyNormalize title) (pyNormalize desc))
      (List.foldl (coreStep (pyNormalize title) (pyNormalize desc))
        ((0 : ℚ), ([] : Str), ([] : Str)) cs) ss = _
  rw [foldl_core_spec (pyNormalize title) (pyNormalize desc) cs
    ((0 : ℚ), ([] : Str), ([] : Str)) (le_refl 0)]
  rw [foldl_stretch_spec (pyNormalize title) (pyNormalize desc) ss _
    (foldl_specStep_fst_ge _ ((0 : ℚ), ([] : Str), ([] : Str)))]

/-- C1: role matching in `score_job` is the graduated hierarchy the spec
describes — each role contributes its single strongest match value (title
substring 0.40/0.20, ≥ 60 % title word overlap 0.35/0.18, description
substring 0.15/0.08, core/stretch respectively), only the first maximum
over core roles then stretch roles (in list order) contributes, so ties
favor the earlier tier and the earlier-listed role. -/
theorem C1_role_matching_hierarchy :
    ∀ (title desc : Option Str) (coreRoles stretchRoles : List Str),
      bestRoleMatch title desc coreRoles stretchRoles =
        specBestRole title desc coreRoles stretchRoles :=
  fun title desc cs ss => bestRoleMatch_eq_spec title desc cs ss

/-! ## Quantization of the role score and the zero-score analysis -/

lemma foldl_step_preserve (step : (ℚ × Str × Str) → Str → (ℚ × Str × Str))
    (P : (ℚ × Str × Str) → Prop) (hstep : ∀ b r, P b → P (step b r)) :
    ∀ (l : List Str) (b : ℚ × Str × Str), P b → P (l.foldl step b) := by
  intro l
  induction l with
  | nil => intro b hb; exact hb
  | cons r t ih => intro b hb; exact ih (step b r) (hstep b r hb)

lemma coreStep_zero_or (tn dn : Str) (b : ℚ × Str × Str) (r : Str)
    (hb : b.1 = 0 ∨ (0.08 : ℚ) ≤ b.1) :
    (coreStep tn dn b r).1 = 0 ∨ (0.08 : ℚ) ≤ (coreStep tn dn b r).1 := by
  unfold coreStep
  by_cases h1 : isSubstr (pyLower r) tn = true
  · simp only [h1, if_true]
    split_ifs with h2
    · right
      show (0.08 : ℚ) ≤ (0.40 : ℚ)
      norm_num
    · exact hb
  · simp only [h1, Bool.false_eq_true, if_false]
    split_ifs with h2 h3
    · right
      show (0.08 : ℚ) ≤ (0.35 : ℚ)
      norm_num
    · right
      show (0.08 : ℚ) ≤ (0.15 : ℚ)
      norm_num
    · exact hb

lemma stretchStep_zero_or (tn dn : Str) (b : ℚ × Str × Str) (r : Str)
    (hb : b.1 = 0 ∨ (0.08 : ℚ) ≤ b.1) :
    (stretchStep tn dn b r).1 = 0 ∨ (0.08 : ℚ) ≤ (stretchStep tn dn b r).1 := by
  unfold stretchStep
  by_cases h1 : isSubstr (pyLower r) tn = true
  · simp only [h1, if_true]
    split_ifs with h2
    · right
      show (0.08 : ℚ) ≤ (0.20 : ℚ)
      norm_num
    · exact hb
  · simp only [h1, Bool.false_eq_true, if_false]
    split_ifs with h2 h3
    · right
      show (0.08 : ℚ) ≤ (0.18 : ℚ)
      norm_num
    · right
      show (0.08 : ℚ) ≤ (0.08 : ℚ)
      norm_num
    · exact hb

lemma roleBest_zero_or (title desc : Option Str) (cs ss : List Str) :
    (bestRoleMatch title desc cs ss).1 = 0 ∨
      (0.08 : ℚ) ≤ (bestRoleMatch title desc cs ss).1 := by
  show (List.foldl (stretchStep (pyNormalize title) (pyNormalize desc))
    (List.foldl (coreStep (pyNormalize title) (pyNormalize desc))
      ((0 : ℚ), ([] : Str), ([] : Str)) cs) ss).1 = 0 ∨ _
  refine foldl_step_preserve _ (fun x => x.1 = 0 ∨ (0.08 : ℚ) ≤ x.1)
    (stretchStep_zero_or _ _) ss _ ?_
  exact foldl_step_preserve _ (fun x => x.1 = 0 ∨ (0.08 : ℚ) ≤ x.1)
    (coreStep_zero_or _ _) cs _ (Or.inl rfl)

/-- A nonnegative rational rounding to 0 is at most 1/200. -/
lemma round2_eq_zero_le {x : ℚ} (hx : 0 ≤ x) (h : round2 x = 0) : x ≤ 1/200 := by
  have hn : roundHalfEven (x * 100) = 0 := by
    unfold round2 at h
    field_simp at h
    exact_mod_cast h
  unfold roundHalfEven at hn
  have hfl : ((⌊x * 100⌋ : ℤ) : ℚ) ≤ x * 100 := Int.floor_le _
  have hf0 : (0 : ℤ) ≤ ⌊x * 100⌋ := Int.floor_nonneg.mpr (by positivity)
  split_ifs at hn with hgt hlt heven
  · omega
  · have : ((⌊x * 100⌋ : ℤ) : ℚ) = 0 := by exact_mod_cast hn
    linarith
  · have : ((⌊x * 100⌋ : ℤ) : ℚ) = 0 := by exact_mod_cast hn
    linarith
  · omega

lemma round2_tenth : round2 (0.10 : ℚ) = (0.10 : ℚ) := by decide

/-- C5 (amended): a returned score of 0.0 with empty `match_reasons`
occurs exactly for fresher-filtered jobs or for jobs with no weak signal
at all (no matched skill and no roles configured); a non-hard-filtered job
whose capped additive total is 0 but which has a weak signal is floored to
0.10; and fresher-filtered jobs always return 0.0 with empty reasons (the
floor never applies to them). -/
theorem C5_zero_score_amended :
    ∀ (j : Job) (p : Profile) (sj : ScoredJob), scoreJob j p = some sj →
      ((sj.score = 0 ∧ sj.match_reasons = []) →
        isFresherOnly j.description j.title = true ∨
          (uniqueMatchedOf j p = [] ∧ p.core_roles = [] ∧ p.stretch_roles = []))
      ∧ (isFresherOnly j.description j.title = false →
          isOverLevel j.title p.level = false →
          cappedOf j p = 0 → weakSignalOf j p = true → sj.score = (0.10 : ℚ))
      ∧ (isFresherOnly j.description j.title = true →
          sj.score = 0 ∧ sj.match_reasons = []) := by
  intro j p sj h
  unfold scoreJob at h
  split_ifs at h with h1 h2 h3
  · injection h with h4
    subst h4
    refine ⟨fun _ => Or.inl h1, fun hf => ?_, fun _ => ⟨rfl, rfl⟩⟩
    rw [hf] at h1
    exact absurd h1 Bool.false_ne_true
  · injection h with h4
    subst h4
    refine ⟨fun hzr => ?_, fun _ hov => ?_, fun hf => absurd hf h1⟩
    · exact absurd hzr.2 (by simp)
    · rw [hov] at h2
      exact absurd h2 Bool.false_ne_true
  · injection h with h4
    subst h4
    refine ⟨fun hzr => ?_, fun _ _ hc hw => ?_, fun hf => absurd hf h1⟩
    · right
      have hs : round2 (finalScoreOf j p) = 0 := hzr.1
      have hfin : finalScoreOf j p ≤ 1/200 :=
        round2_eq_zero_le (final_nonneg j p) hs
      have hnotfloor : ¬(cappedOf j p = 0 ∧ weakSignalOf j p = true) := by
        intro hcw
        unfold finalScoreOf at hfin
        rw [if_pos hcw] at hfin
        norm_num at hfin
      have hfc : finalScoreOf j p = cappedOf j p := by
        unfold finalScoreOf
        rw [if_neg hnotfloor]
      have hcap : cappedOf j p ≤ 1/200 := by rw [← hfc]; exact hfin
      have hraw : rawTotalOf j p ≤ 1/200 := by
        unfold cappedOf at hcap
        rcases le_or_lt (rawTotalOf j p) 1 with hle | hgt
        · rwa [min_eq_left hle] at hcap
        · rw [min_eq_right (le_of_lt hgt)] at hcap
          norm_num at hcap
      have hrole : 0 ≤ (roleBestOf j p).1 :=
        roleBest_fst_nonneg j.title j.description p.core_roles p.stretch_roles
      have ht3 : 0 ≤ (if hasSeniorityOf j then (0.10 : ℚ) else 0) := by
        split_ifs <;> norm_num
      have ht4 : 0 ≤ (if hasLocationOf j p then (0.15 : ℚ) else 0) := by
        split_ifs <;> norm_num
      have ht5 : 0 ≤ (if hasSalaryOf j p then (0.10 : ℚ) else 0) := by
        split_ifs <;> norm_num
      have ht6 : 0 ≤ (if 3 ≤ (uniqueMatchedOf j p).length ∧
          (roleBestOf j p).2.2 = "core".data then (0.05 : ℚ) else 0) := by
        split_ifs <;> norm_num
      have hmt : 0 ≤ min ((0.05 : ℚ) * ((uniqueMatchedOf j p).length : ℚ)) (0.25 : ℚ) :=
        le_min (by positivity) (by norm_num)
      have hum : uniqueMatchedOf j p = [] := by
        by_contra hne
        have hlen : 1 ≤ (uniqueMatchedOf j p).length := List.length_pos.mpr hne
        have hlenq : (1 : ℚ) ≤ ((uniqueMatchedOf j p).length : ℚ) := by
          exact_mod_cast hlen
        have hmge : (0.05 : ℚ) ≤
            min ((0.05 : ℚ) * ((uniqueMatchedOf j p).length : ℚ)) (0.25 : ℚ) := by
          refine le_min ?_ (by norm_num)
          nlinarith
        unfold rawTotalOf at hraw
        linarith
      refine ⟨hum, ?_⟩
      have hmt0 : min ((0.05 : ℚ) * ((uniqueMatchedOf j p).length : ℚ)) (0.25 : ℚ) = 0 := by
        rw [hum]
        norm_num
      have hrole0 : (roleBestOf j p).1 = 0 := by
        have hz : (roleBestOf j p).1 = 0 ∨ (0.08 : ℚ) ≤ (roleBestOf j p).1 :=
          roleBest_zero_or j.title j.description p.core_roles p.stretch_roles
        rcases hz with h0 | h8
        · exact h0
        · exfalso
          unfold rawTotalOf at hraw
          linarith
      have ht30 : (if hasSeniorityOf j then (0.10 : ℚ) else 0) = 0 := by
        split_ifs with hc
        · exfalso
          unfold rawTotalOf at hraw
          rw [if_pos hc] at hraw
          linarith
        · rfl
      have ht40 : (if hasLocationOf j p then (0.15 : ℚ) else 0) = 0 := by
        split_ifs with hc
        · exfalso
          unfold rawTotalOf at hraw
          rw [if_pos hc] at hraw
          linarith
        · rfl
      have ht50 : (if hasSalaryOf j p then (0.10 : ℚ) else 0) = 0 := by
        split_ifs with hc
        · exfalso
          unfold rawTotalOf at hraw
          rw [if_pos hc] at hraw
          linarith
        · rfl
      have ht60 : (if 3 ≤ (uniqueMatchedOf j p).length ∧
          (roleBestOf j p).2.2 = "core".data then (0.05 : ℚ) else 0) = 0 := by
        split_ifs with hc
        · exfalso
          rw [hum] at hc
          simp at hc
        · rfl
      have hraw0 : rawTotalOf j p = 0 := by
        unfold rawTotalOf
        rw [hrole0, hmt0, ht30, ht40, ht50, ht60]
        ring
      have hcap0 : cappedOf j p = 0 := by
        unfold cappedOf
        rw [hraw0]
        norm_num
      have hwk : weakSignalOf j p = false := by
        rcases Bool.eq_false_or_eq_true (weakSignalOf j p) with ht | hf
        · exact absurd ⟨hcap0, ht⟩ hnotfloor
        · exact hf
      unfold weakSignalOf at hwk
      simp only [Bool.or_eq_false_iff, Bool.not_eq_false'] at hwk
      exact ⟨List.isEmpty_iff.mp hwk.1.2, List.isEmpty_iff.mp hwk.2⟩
    · show round2 (finalScoreOf j p) = (0.10 : ℚ)
      unfold finalScoreOf
      rw [if_pos ⟨hc, hw⟩]
      exact round2_tenth

/-- Witness for C5 at a concrete input: a fresher-filtered job. -/
theorem C5_zero_score_witness :
    (0 : ℚ) = 0 ∧ ([] : List Str) = [] :=
  (C5_zero_score_amended freshJob c6profile
    { job := freshJob, score := 0, match_reasons := [], keyword_suggestions := [] }
    (by decide)).2.2 (by decide)

/-! ## Substring and strip lemmas for description extension (claim C6) -/

lemma isSubstr_append_left (s : Str) :
    ∀ (pre l : Str), isSubstr s l = true → isSubstr s (pre ++ l) = true := by
  intro pre
  induction pre with
  | nil => intro l h; simpa using h
  | cons a t ih =>
    intro l h
    show isSubstr s (a :: (t ++ l)) = true
    unfold isSubstr
    rw [Bool.or_eq_true]
    exact Or.inr (ih l h)

lemma dropWhile_eq_nil_iff_all (p : Char → Bool) :
    ∀ l : Str, l.dropWhile p = [] ↔ ∀ a ∈ l, p a = true := by
  intro l
  induction l with
  | nil => simp
  | cons c t ih =>
    by_cases h : p c = true
    · simp only [List.dropWhile_cons, h, if_true, ih]
      constructor
      · intro hall a ha
        rcases List.mem_cons.mp ha with rfl | hat
        · exact h
        · exact hall a hat
      · intro hall a ha
        exact hall a (List.mem_cons_of_mem _ ha)
    · simp only [List.dropWhile_cons, h, if_false]
      constructor
      · intro hc
        exact absurd hc (List.cons_ne_nil _ _)
      · intro hall
        exact absurd (hall c (List.mem_cons_self _ _)) h

/-- Dropping leading whitespace first keeps the trailing-stripped result
as a suffix of the trailing-stripped original. -/
lemma dropTrailing_dropWhile_suffix (d : Str) :
    ∃ pre, dropTrailingWs d = pre ++ dropTrailingWs (d.dropWhile isPyWs) := by
  by_cases hC : d.dropWhile isPyWs = []
  · rw [hC]
    refine ⟨dropTrailingWs d, ?_⟩
    simp [dropTrailingWs]
  · have hd : d.takeWhile isPyWs ++ d.dropWhile isPyWs = d :=
      List.takeWhile_append_dropWhile isPyWs d
    have hc0 : isPyWs ((d.dropWhile isPyWs).head hC) = false :=
      List.head_dropWhile_not isPyWs d hC
    have hrev : (d.dropWhile isPyWs).reverse.dropWhile isPyWs ≠ [] := by
      intro hnil
      have hall := (dropWhile_eq_nil_iff_all isPyWs _).mp hnil
      have hmem : (d.dropWhile isPyWs).head hC ∈ (d.dropWhile isPyWs).reverse := by
        rw [List.mem_reverse]
        exact List.head_mem hC
      rw [hall _ hmem] at hc0
      cases hc0
    refine ⟨d.takeWhile isPyWs, ?_⟩
    conv_lhs => rw [← hd]
    unfold dropTrailingWs
    rw [List.reverse_append, List.dropWhile_append,
      if_neg (by simpa [List.isEmpty_iff] using hrev), List.reverse_append,
      List.reverse_reverse]

/-- Prepending `tok ++ " "` to a string keeps its stripped form as a
suffix of the stripped result (the fixed separator space guarantees this
whatever `tok` is). -/
lemma pyStrip_prepend_suffix (tok d : Str) :
    ∃ pre, pyStrip (tok ++ ' ' :: d) = pre ++ pyStrip d := by
  unfold pyStrip
  rw [List.dropWhile_append]
  by_cases hT : (tok.dropWhile isPyWs).isEmpty = true
  · rw [if_pos hT]
    rw [List.dropWhile_cons_of_pos (by decide : isPyWs ' ' = true)]
    exact ⟨[], by simp⟩
  · rw [if_neg hT]
    unfold dropTrailingWs
    rw [List.reverse_append, List.reverse_cons, List.append_assoc,
      List.dropWhile_append]
    by_cases hD : (d.reverse.dropWhile isPyWs).isEmpty = true
    · rw [if_pos hD]
      rw [show ([' '] ++ (tok.dropWhile isPyWs).reverse) =
        ' ' :: (tok.dropWhile isPyWs).reverse from rfl]
      rw [List.dropWhile_cons_of_pos (by decide : isPyWs ' ' = true)]
      have hdnil : d.dropWhile isPyWs = [] := by
        rw [dropWhile_eq_nil_iff_all]
        intro a ha
        exact (dropWhile_eq_nil_iff_all _ _).mp (List.isEmpty_iff.mp hD) a
          (by rwa [List.mem_reverse])
      rw [hdnil]
      exact ⟨((tok.dropWhile isPyWs).reverse.dropWhile isPyWs).reverse, by simp⟩
    · rw [if_neg hD]
      obtain ⟨pre', hpre'⟩ := dropTrailing_dropWhile_suffix d
      unfold dropTrailingWs at hpre'
      refine ⟨tok.dropWhile isPyWs ++ ' ' :: pre', ?_⟩
      rw [List.reverse_append, List.reverse_append]
      simp [hpre']

/-- Prepending `tok ++ " "` to the description keeps the normalized
description as a suffix. -/
lemma pyNormalize_prepend_suffix (tok d : Str) :
    ∃ pre, pyNormalize (some (tok ++ ' ' :: d)) = pre ++ pyNormalize (some d) := by
  unfold pyNormalize
  simp only [Option.getD_some]
  have h1 : pyLower (tok ++ ' ' :: d) = pyLower tok ++ ' ' :: pyLower d := by
    unfold pyLower
    rw [List.map_append, List.map_cons]
    rfl
  rw [h1]
  exact pyStrip_prepend_suffix (pyLower tok) (pyLower d)

/-- Prepending a token to the description keeps the old `full_text` as a
suffix of the new one, so every substring match is preserved. -/
lemma fullText_prepend_suffix (j : Job) (tok d : Str) (hd : j.description = some d) :
    ∃ pre, fullTextOf { j with description := some (tok ++ ' ' :: d) } =
      pre ++ fullTextOf j := by
  unfold fullTextOf
  rw [hd]
  obtain ⟨pre, hp⟩ := pyNormalize_prepend_suffix tok d
  refine ⟨pre, ?_⟩
  show pyNormalize (some (tok ++ ' ' :: d)) ++ ' ' :: pyNormalize j.title = _
  rw [hp, List.append_assoc]

/-! ## Deduplication and matched-skill monotonicity -/

lemma pyDedupAux_mem_not_seen :
    ∀ (l seen : List Str) (x : Str), x ∈ pyDedupAux l seen → x ∉ seen := by
  intro l
  induction l with
  | nil => intro seen x hx; simp [pyDedupAux] at hx
  | cons y t ih =>
    intro seen x hx
    unfold pyDedupAux at hx
    split at hx
    · exact ih seen x hx
    · rcases List.mem_cons.mp hx with rfl | hxt
      · assumption
      · intro hxs
        exact ih (y :: seen) x hxt (List.mem_cons_of_mem _ hxs)

lemma pyDedupAux_nodup : ∀ (l seen : List Str), (pyDedupAux l seen).Nodup := by
  intro l
  induction l with
  | nil => intro seen; simp [pyDedupAux]
  | cons y t ih =>
    intro seen
    unfold pyDedupAux
    split
    · exact ih seen
    · refine List.Nodup.cons ?_ (ih (y :: seen))
      intro hy
      exact pyDedupAux_mem_not_seen t (y :: seen) y hy (List.mem_cons_self _ _)

lemma pyDedup_nodup (l : List Str) : (pyDedup l).Nodup := pyDedupAux_nodup l []

lemma pyDedupAux_eq_self :
    ∀ (l seen : List Str), l.Nodup → (∀ x ∈ l, x ∉ seen) → pyDedupAux l seen = l := by
  intro l
  induction l with
  | nil => intro seen _ _; rfl
  | cons y t ih =>
    intro seen hnd hout
    unfold pyDedupAux
    rw [if_neg (hout y (List.mem_cons_self _ _))]
    congr 1
    refine ih (y :: seen) (List.Nodup.of_cons hnd) ?_
    intro x hx
    rw [List.mem_cons]
    rintro (rfl | hxs)
    · exact (List.nodup_cons.mp hnd).1 hx
    · exact hout x (List.mem_cons_of_mem _ hx) hxs

lemma pyDedup_eq_self {l : List Str} (h : l.Nodup) : pyDedup l = l :=
  pyDedupAux_eq_self l [] h (by simp)

lemma expandSkills_nodup (sk : List Str) : (expandSkills sk).Nodup :=
  pyDedup_nodup _

lemma uniqueMatched_eq_filter (j : Job) (p : Profile) :
    uniqueMatchedOf j p =
      (expandSkills p.skills).filter (fun s => isSubstr s (fullTextOf j)) := by
  unfold uniqueMatchedOf
  exact pyDedup_eq_self (List.Nodup.filter _ (expandSkills_nodup p.skills))

lemma filter_length_mono {p q : Str → Bool} :
    ∀ l : List Str, (∀ a ∈ l, p a = true → q a = true) →
      (l.filter p).length ≤ (l.filter q).length := by
  intro l
  induction l with
  | nil => intro _; simp
  | cons a t ih =>
    intro h
    have ht : ∀ b ∈ t, p b = true → q b = true :=
      fun b hb => h b (List.mem_cons_of_mem _ hb)
    by_cases hp : p a = true
    · rw [List.filter_cons_of_pos hp, List.filter_cons_of_pos (h a (List.mem_cons_self _ _) hp)]
      simpa using ih ht
    · rw [List.filter_cons_of_neg (by simpa using hp)]
      refine le_trans (ih ht) ?_
      by_cases hq : q a = true
      · rw [List.filter_cons_of_pos hq]
        simp
      · rw [List.filter_cons_of_neg (by simpa using hq)]

lemma uniqueMatched_length_mono (j : Job) (p : Profile) (tok d : Str)
    (hd : j.description = some d) :
    (uniqueMatchedOf j p).length ≤
      (uniqueMatchedOf { j with description := some (tok ++ ' ' :: d) } p).length := by
  rw [uniqueMatched_eq_filter, uniqueMatched_eq_filter]
  obtain ⟨pre, hp⟩ := fullText_prepend_suffix j tok d hd
  refine filter_length_mono _ ?_
  intro s _ hs
  rw [hp]
  exact isSubstr_append_left s pre _ hs

lemma hasSeniority_mono (j : Job) (tok d : Str) (hd : j.description = some d)
    (h : hasSeniorityOf j = true) :
    hasSeniorityOf { j with description := some (tok ++ ' ' :: d) } = true := by
  unfold hasSeniorityOf senTermOf at h ⊢
  rw [List.find?_isSome] at h ⊢
  obtain ⟨x, hx, hsx⟩ := h
  obtain ⟨pre, hp⟩ := fullText_prepend_suffix j tok d hd
  refine ⟨x, hx, ?_⟩
  rw [hp]
  simpa using isSubstr_append_left x pre _ (by simpa using hsx)

/-! ## Salary-signal monotonicity -/

lemma digitRunsAux_cons (c : Char) (t acc : Str) :
    digitRunsAux (c :: t) acc =
      if c.isDigit = true then digitRunsAux t (c :: acc)
      else if acc.isEmpty = true then digitRunsAux t []
      else acc.reverse :: digitRunsAux t [] := rfl

lemma digitRunsAux_sep_append :
    ∀ (x acc d : Str),
      digitRunsAux (x ++ ' ' :: d) acc =
        digitRunsAux (x ++ [' ']) acc ++ digitRunsAux d [] := by
  intro x
  induction x with
  | nil =>
    intro acc d
    show digitRunsAux (' ' :: d) acc = digitRunsAux (' ' :: []) acc ++ digitRunsAux d []
    rw [digitRunsAux_cons, digitRunsAux_cons]
    have hsp : (' ').isDigit = false := by decide
    by_cases h : acc.isEmpty = true
    · simp [hsp, h, digitRunsAux]
    · simp [hsp, h, digitRunsAux]
  | cons c t ih =>
    intro acc d
    show digitRunsAux (c :: (t ++ ' ' :: d)) acc =
      digitRunsAux (c :: (t ++ [' '])) acc ++ digitRunsAux d []
    rw [digitRunsAux_cons, digitRunsAux_cons]
    by_cases h1 : c.isDigit = true
    · simp only [h1, if_true]
      exact ih (c :: acc) d
    · simp only [h1, Bool.false_eq_true, if_false]
      by_cases h2 : acc.isEmpty = true
      · simp only [h2, if_true]
        exact ih [] d
      · simp only [h2, Bool.false_eq_true, if_false]
        rw [ih [] d]
        simp

lemma hasSalary_mono (j : Job) (p : Profile) (tok d : Str)
    (hd : j.description = some d) (h : hasSalaryOf j p = true) :
    hasSalaryOf { j with description := some (tok ++ ' ' :: d) } p = true := by
  unfold hasSalaryOf salaryTriggered at h ⊢
  rw [Bool.and_eq_true] at h ⊢
  obtain ⟨htr, hdig⟩ := h
  constructor
  · rw [Bool.and_eq_true] at htr ⊢
    refine ⟨htr.1, ?_⟩
    rw [List.any_eq_true] at htr ⊢
    obtain ⟨m, hm, hsm⟩ := htr.2
    obtain ⟨pre, hp⟩ := fullText_prepend_suffix j tok d hd
    refine ⟨m, hm, ?_⟩
    rw [hp]
    simpa using isSubstr_append_left m pre _ (by simpa using hsm)
  · show ((digitRuns ((some (tok ++ ' ' :: d)).getD [])).any _) = true
    rw [Option.getD_some]
    unfold digitRuns
    rw [digitRunsAux_sep_append tok [] d]
    rw [List.any_append, Bool.or_eq_true]
    right
    rw [hd] at hdig
    simpa using hdig

/-! ## Role-score monotonicity and tier preservation under description
extension -/

lemma foldl_specStep_fst :
    ∀ (L : List (ℚ × Str × Str)) (b : ℚ × Str × Str),
      (L.foldl specStep b).1 = L.foldl (fun m c => max m c.1) b.1 := by
  intro L
  induction L with
  | nil => intro b; rfl
  | cons c t ih =>
    intro b
    simp only [List.foldl_cons]
    rw [ih, specStep_fst]

lemma foldl_max_mono {α : Type} :
    ∀ (l : List α) (f g : α → ℚ) (b b' : ℚ), b ≤ b' → (∀ a ∈ l, f a ≤ g a) →
      l.foldl (fun m x => max m (f x)) b ≤ l.foldl (fun m x => max m (g x)) b' := by
  intro l
  induction l with
  | nil => intro f g b b' hb _; exact hb
  | cons a t ih =>
    intro f g b b' hb h
    simp only [List.foldl_cons]
    exact ih f g _ _ (max_le_max hb (h a (List.mem_cons_self _ _)))
      (fun x hx => h x (List.mem_cons_of_mem _ hx))

lemma foldl_specStep_cases :
    ∀ (L : List (ℚ × Str × Str)) (b : ℚ × Str × Str),
      L.foldl specStep b = b ∨ ∃ c ∈ L, L.foldl specStep b = c ∧ b.1 < c.1 := by
  intro L
  induction L with
  | nil => intro b; exact Or.inl rfl
  | cons c t ih =>
    intro b
    simp only [List.foldl_cons]
    unfold specStep
    split_ifs with h
    · rcases ih c with h1 | ⟨c', hc', h2, h3⟩
      · exact Or.inr ⟨c, List.mem_cons_self _ _, h1, h⟩
      · exact Or.inr ⟨c', List.mem_cons_of_mem _ hc', h2, lt_trans h h3⟩
    · rcases ih b with h1 | ⟨c', hc', h2, h3⟩
      · exact Or.inl h1
      · exact Or.inr ⟨c', List.mem_cons_of_mem _ hc', h2, h3⟩

lemma foldl_specStep_keep :
    ∀ (L : List (ℚ × Str × Str)) (b : ℚ × Str × Str),
      (∀ c ∈ L, c.1 ≤ b.1) → L.foldl specStep b = b := by
  intro L
  induction L with
  | nil => intro b _; rfl
  | cons c t ih =>
    intro b h
    simp only [List.foldl_cons]
    have hc : specStep b c = b := by
      unfold specStep
      rw [if_neg (not_lt.mpr (h c (List.mem_cons_self _ _)))]
    rw [hc]
    exact ih b (fun x hx => h x (List.mem_cons_of_mem _ hx))

lemma foldl_specStep_eq_imp :
    ∀ (L : List (ℚ × Str × Str)) (b : ℚ × Str × Str),
      L.foldl specStep b = b → ∀ c ∈ L, c.1 ≤ b.1 := by
  intro L
  induction L with
  | nil => intro b _ c hc; simp at hc
  | cons c t ih =>
    intro b h c' hc'
    simp only [List.foldl_cons] at h
    have hstep : specStep b c = b := by
      have h1 : (specStep b c).1 ≤ (t.foldl specStep (specStep b c)).1 :=
        foldl_specStep_fst_ge t (specStep b c)
    /- the fold ends at `b`, so the intermediate value never exceeded `b.1` -/
      rw [h] at h1
      rw [specStep_fst] at h1
      have hcb : c.1 ≤ b.1 := by
        rcases max_cases b.1 c.1 with ⟨hm, _⟩ | ⟨hm, hlt⟩
        · rw [hm] at h1
          rcases le_or_lt c.1 b.1 with hle | hgt
          · exact hle
          · rw [max_eq_right (le_of_lt hgt)] at hm
            linarith
        · rw [hm] at h1
          linarith [le_of_lt hlt, h1]
      unfold specStep
      rw [if_neg (not_lt.mpr hcb)]
    rcases List.mem_cons.mp hc' with rfl | hct
    · have h1 : (specStep b c').1 ≤ (t.foldl specStep (specStep b c')).1 :=
        foldl_specStep_fst_ge t (specStep b c')
      rw [h] at h1
      rw [specStep_fst] at h1
      exact le_trans (le_max_right _ _) h1
    · rw [hstep] at h
      exact ih b h c' hct

lemma specCoreValue_nonneg (tn dn r : Str) : 0 ≤ specCoreValue tn dn r := by
  unfold specCoreValue
  split_ifs <;> norm_num

lemma specCoreValue_pos_ge (tn dn r : Str) (h : 0 < specCoreValue tn dn r) :
    (0.15 : ℚ) ≤ specCoreValue tn dn r := by
  unfold specCoreValue at h ⊢
  split_ifs at h ⊢ with h1 h2 h3
  · norm_num
  · norm_num
  · norm_num
  · exact absurd h (by norm_num)

lemma specCoreValue_mono (tn dn dn' r : Str)
    (h : ∀ s : Str, isSubstr s dn = true → isSubstr s dn' = true) :
    specCoreValue tn dn r ≤ specCoreValue tn dn' r := by
  unfold specCoreValue
  by_cases h1 : isSubstr (pyLower r) tn = true
  · simp [h1]
  · simp only [h1, Bool.false_eq_true, if_false]
    by_cases h2 : wordOverlapRatio (pyLower r) tn ≥ (0.6 : ℚ)
    · simp [h2]
    · simp only [h2, if_false]
      by_cases h3 : isSubstr (pyLower r) dn = true
      · rw [if_pos h3, if_pos (h _ h3)]
      · rw [if_neg h3]
        split_ifs <;> norm_num

lemma specStretchValue_mono (tn dn dn' r : Str)
    (h : ∀ s : Str, isSubstr s dn = true → isSubstr s dn' = true) :
    specStretchValue tn dn r ≤ specStretchValue tn dn' r := by
  unfold specStretchValue
  by_cases h1 : isSubstr (pyLower r) tn = true
  · simp [h1]
  · simp only [h1, Bool.false_eq_true, if_false]
    by_cases h2 : wordOverlapRatio (pyLower r) tn ≥ (0.6 : ℚ)
    · simp [h2]
    · simp only [h2, if_false]
      by_cases h3 : isSubstr (pyLower r) dn = true
      · rw [if_pos h3, if_pos (h _ h3)]
      · rw [if_neg h3]
        split_ifs <;> norm_num

lemma specStretchValue_le_max (tn dn dn' r : Str) :
    specStretchValue tn dn' r ≤ max (specStretchValue tn dn r) (0.08 : ℚ) := by
  unfold specStretchValue
  by_cases h1 : isSubstr (pyLower r) tn = true
  · simp [h1]
  · simp only [h1, Bool.false_eq_true, if_false]
    by_cases h2 : wordOverlapRatio (pyLower r) tn ≥ (0.6 : ℚ)
    · simp [h2]
    · simp only [h2, if_false]
      split_ifs <;> exact le_max_of_le_right (by norm_num)

lemma descNorm_sub_mono (tok d : Str) :
    ∀ s : Str, isSubstr s (pyNormalize (some d)) = true →
      isSubstr s (pyNormalize (some (tok ++ ' ' :: d))) = true := by
  intro s hs
  obtain ⟨pre, hp⟩ := pyNormalize_prepend_suffix tok d
  rw [hp]
  exact isSubstr_append_left s pre _ hs

lemma foldl_max_map_mono (l : List Str) (f g : Str → ℚ × Str × Str) (b b' : ℚ)
    (hb : b ≤ b') (h : ∀ r ∈ l, (f r).1 ≤ (g r).1) :
    (l.map f).foldl (fun m c => max m c.1) b ≤
      (l.map g).foldl (fun m c => max m c.1) b' := by
  induction l generalizing b b' with
  | nil => exact hb
  | cons a t ih =>
    simp only [List.map_cons, List.foldl_cons]
    exact ih _ _ (max_le_max hb (h a (List.mem_cons_self _ _)))
      (fun x hx => h x (List.mem_cons_of_mem _ hx))

lemma roleBest_fst_mono (title : Option Str) (tok d : Str) (cs ss : List Str) :
    (bestRoleMatch title (some d) cs ss).1 ≤
      (bestRoleMatch title (some (tok ++ ' ' :: d)) cs ss).1 := by
  rw [bestRoleMatch_eq_spec, bestRoleMatch_eq_spec]
  unfold specBestRole specCandidates
  rw [List.foldl_append, List.foldl_append]
  simp only [foldl_specStep_fst]
  refine foldl_max_map_mono ss _ _ _ _ ?_ ?_
  · refine foldl_max_map_mono cs _ _ _ _ (le_refl _) ?_
    intro r _
    exact specCoreValue_mono _ _ _ r (descNorm_sub_mono tok d)
  · intro r _
    exact specStretchValue_mono _ _ _ r (descNorm_sub_mono tok d)

lemma roleBest_tier_mono (title : Option Str) (tok d : Str) (cs ss : List Str)
    (h : (bestRoleMatch title (some d) cs ss).2.2 = "core".data) :
    (bestRoleMatch title (some (tok ++ ' ' :: d)) cs ss).2.2 = "core".data := by
  rw [bestRoleMatch_eq_spec] at h ⊢
  unfold specBestRole specCandidates at h ⊢
  rw [List.foldl_append] at h ⊢
  set tn := pyNormalize title with htn
  set dn := pyNormalize (some d) with hdn
  set dn' := pyNormalize (some (tok ++ ' ' :: d)) with hdn'
  set A := (cs.map (fun r => (specCoreValue tn dn r, r, "core".data))).foldl
    specStep ((0 : ℚ), ([] : Str), ([] : Str)) with hA
  set A' := (cs.map (fun r => (specCoreValue tn dn' r, r, "core".data))).foldl
    specStep ((0 : ℚ), ([] : Str), ([] : Str)) with hA2
  have hfin : (ss.map (fun r => (specStretchValue tn dn r, r, "stretch".data))).foldl
      specStep A = A := by
    rcases foldl_specStep_cases
      (ss.map (fun r => (specStretchValue tn dn r, r, "stretch".data))) A with
      h1 | ⟨c, hc, h2, _⟩
    · exact h1
    · exfalso
      obtain ⟨r, _, rfl⟩ := List.mem_map.mp hc
      rw [h2] at h
      exact absurd h (by decide : ¬(("stretch".data : Str) = "core".data))
  rw [hfin] at h
  have hAval : (0.15 : ℚ) ≤ A.1 := by
    rcases foldl_specStep_cases
      (cs.map (fun r => (specCoreValue tn dn r, r, "core".data)))
      ((0 : ℚ), ([] : Str), ([] : Str)) with h1 | ⟨c, hc, h2, h3⟩
    · exfalso
      rw [hA, h1] at h
      exact absurd h (by decide : ¬(([] : Str) = "core".data))
    · rw [hA, h2]
      obtain ⟨r, _, rfl⟩ := List.mem_map.mp hc
      exact specCoreValue_pos_ge tn dn r h3
  have hstr : ∀ c ∈ ss.map (fun r => (specStretchValue tn dn r, r, "stretch".data)),
      c.1 ≤ A.1 :=
    foldl_specStep_eq_imp _ A hfin
  have hval : A.1 ≤ A'.1 := by
    rw [hA, hA2]
    simp only [foldl_specStep_fst]
    exact foldl_max_map_mono cs _ _ _ _ (le_refl _)
      (fun r _ => specCoreValue_mono tn dn dn' r (descNorm_sub_mono tok d))
  have hnew : ∀ c ∈ ss.map (fun r => (specStretchValue tn dn' r, r, "stretch".data)),
      c.1 ≤ A'.1 := by
    intro c hc
    obtain ⟨r, hr, rfl⟩ := List.mem_map.mp hc
    have h1 : specStretchValue tn dn' r ≤ max (specStretchValue tn dn r) (0.08 : ℚ) :=
      specStretchValue_le_max tn dn dn' r
    have h2 : specStretchValue tn dn r ≤ A.1 :=
      hstr _ (List.mem_map.mpr ⟨r, hr, rfl⟩)
    have h3 : (0.08 : ℚ) ≤ A.1 := le_trans (by norm_num) hAval
    exact le_trans h1 (le_trans (max_le h2 h3) hval)
  rw [foldl_specStep_keep _ A' hnew]
  rcases foldl_specStep_cases
    (cs.map (fun r => (specCoreValue tn dn' r, r, "core".data)))
    ((0 : ℚ), ([] : Str), ([] : Str)) with h1 | ⟨c, hc, h2, _⟩
  · exfalso
    have hz : A'.1 = 0 := by
      rw [hA2, h1]
    rw [hz] at hval
    linarith
  · obtain ⟨r, _, rfl⟩ := List.mem_map.mp hc
    rw [hA2, h2]

lemma hasLocation_update (j : Job) (p : Profile) (x : Option Str) :
    hasLocationOf { j with description := x } p = hasLocationOf j p := rfl

lemma rawTotal_mono (j : Job) (p : Profile) (tok d : Str)
    (hd : j.description = some d) :
    rawTotalOf j p ≤ rawTotalOf { j with description := some (tok ++ ' ' :: d) } p := by
  unfold rawTotalOf
  have hlen : (uniqueMatchedOf j p).length ≤
      (uniqueMatchedOf { j with description := some (tok ++ ' ' :: d) } p).length :=
    uniqueMatched_length_mono j p tok d hd
  refine add_le_add (add_le_add (add_le_add (add_le_add (add_le_add ?_ ?_) ?_) ?_) ?_) ?_
  · show (roleBestOf j p).1 ≤
      (roleBestOf { j with description := some (tok ++ ' ' :: d) } p).1
    unfold roleBestOf
    rw [hd]
    exact roleBest_fst_mono j.title tok d p.core_roles p.stretch_roles
  · refine min_le_min ?_ (le_refl _)
    have hq : ((uniqueMatchedOf j p).length : ℚ) ≤
        ((uniqueMatchedOf { j with description := some (tok ++ ' ' :: d) } p).length : ℚ) := by
      exact_mod_cast hlen
    nlinarith
  · by_cases h1 : hasSeniorityOf j = true
    · rw [if_pos h1, if_pos (hasSeniority_mono j tok d hd h1)]
    · rw [if_neg h1]
      split_ifs <;> norm_num
  · show (if hasLocationOf j p = true then (0.15 : ℚ) else 0) ≤
      (if hasLocationOf j p = true then (0.15 : ℚ) else 0)
    exact le_refl _
  · by_cases h1 : hasSalaryOf j p = true
    · rw [if_pos h1, if_pos (hasSalary_mono j p tok d hd h1)]
    · rw [if_neg h1]
      split_ifs <;> norm_num
  · by_cases h1 : 3 ≤ (uniqueMatchedOf j p).length ∧
      (roleBestOf j p).2.2 = "core".data
    · have h2 : 3 ≤ (uniqueMatchedOf { j with description := some (tok ++ ' ' :: d) } p).length ∧
        (roleBestOf { j with description := some (tok ++ ' ' :: d) } p).2.2 = "core".data := by
        refine ⟨le_trans h1.1 hlen, ?_⟩
        show (bestRoleMatch j.title (some (tok ++ ' ' :: d)) p.core_roles p.stretch_roles).2.2 =
          "core".data
        refine roleBest_tier_mono j.title tok d p.core_roles p.stretch_roles ?_
        have h3 := h1.2
        unfold roleBestOf at h3
        rw [hd] at h3
        exact h3
      rw [if_pos h1, if_pos h2]
    · rw [if_neg h1]
      split_ifs <;> norm_num

lemma capped_mono (j : Job) (p : Profile) (tok d : Str)
    (hd : j.description = some d) :
    cappedOf j p ≤ cappedOf { j with description := some (tok ++ ' ' :: d) } p :=
  min_le_min (rawTotal_mono j p tok d hd) (le_refl 1)

/-- C6 (amended): adding one more matched skill token (below the 0.25
cap) to the front of the job's description never decreases the score,
PROVIDED the extended text does not trigger the fresher-only hard filter
and the original job's capped additive total is nonzero.  Without those
provisos the score can decrease: a job held at the 0.10 weak-signal floor
drops to 0.05 when the added token becomes its only additive signal (see
the counterexample), and a token containing a fresher phrase can
hard-filter the job to 0.0. -/
theorem C6_skill_monotonicity_amended :
    ∀ (j : Job) (p : Profile) (d tok : Str),
      j.description = some d →
      tok ∈ expandSkills p.skills →
      (uniqueMatchedOf j p).length < 5 →
      isFresherOnly (some (tok ++ ' ' :: d)) j.title = false →
      cappedOf j p ≠ 0 →
      ∃ s s', scoreJob j p = some s ∧
        scoreJob { j with description := some (tok ++ ' ' :: d) } p = some s' ∧
        s.score ≤ s'.score := by
  intro j p d tok hd htok hcap hfresh' hc0
  have hfr' : isFresherOnly ({ j with description := some (tok ++ ' ' :: d) } : Job).description
      ({ j with description := some (tok ++ ' ' :: d) } : Job).title = false := hfresh'
  have hdne' : ¬(({ j with description := some (tok ++ ' ' :: d) } : Job).description = none) := by
    simp
  have hdne : ¬(j.description = none) := by
    rw [hd]
    simp
  by_cases hf : isFresherOnly j.description j.title = true
  · -- the base job is hard-filtered to 0; the extended job never scores below 0
    have hs1 : scoreJob j p = some ⟨j, 0, [], []⟩ := by
      unfold scoreJob
      rw [if_pos hf]
    by_cases hov : isOverLevel j.title p.level = true
    · have hs2 : scoreJob { j with description := some (tok ++ ' ' :: d) } p =
          some ⟨{ j with description := some (tok ++ ' ' :: d) }, 0,
            ["Filtered: seniority above profile level".data], []⟩ := by
        unfold scoreJob
        rw [if_neg (by rw [hfr']; exact Bool.false_ne_true), if_pos hov]
      exact ⟨_, _, hs1, hs2, le_refl 0⟩
    · have hs2 : scoreJob { j with description := some (tok ++ ' ' :: d) } p =
          some ⟨{ j with description := some (tok ++ ' ' :: d) },
            round2 (finalScoreOf { j with description := some (tok ++ ' ' :: d) } p),
            reasonsOf { j with description := some (tok ++ ' ' :: d) } p,
            keywordsOf { j with description := some (tok ++ ' ' :: d) } p⟩ := by
        unfold scoreJob
        rw [if_neg (by rw [hfr']; exact Bool.false_ne_true), if_neg hov,
          if_neg (fun hx => hdne' hx.2)]
      exact ⟨_, _, hs1, hs2, round2_nonneg (final_nonneg _ _)⟩
  · by_cases hov : isOverLevel j.title p.level = true
    · -- both sides take the over-level branch and score 0
      have hs1 : scoreJob j p = some ⟨j, 0,
          ["Filtered: seniority above profile level".data], []⟩ := by
        unfold scoreJob
        rw [if_neg hf, if_pos hov]
      have hs2 : scoreJob { j with description := some (tok ++ ' ' :: d) } p =
          some ⟨{ j with description := some (tok ++ ' ' :: d) }, 0,
            ["Filtered: seniority above profile level".data], []⟩ := by
        unfold scoreJob
        rw [if_neg (by rw [hfr']; exact Bool.false_ne_true), if_pos hov]
      exact ⟨_, _, hs1, hs2, le_refl 0⟩
    · -- neither side is hard-filtered: compare the rounded totals
      have hs1 : scoreJob j p = some ⟨j, round2 (finalScoreOf j p),
          reasonsOf j p, keywordsOf j p⟩ := by
        unfold scoreJob
        rw [if_neg hf, if_neg hov, if_neg (fun hx => hdne hx.2)]
      have hs2 : scoreJob { j with description := some (tok ++ ' ' :: d) } p =
          some ⟨{ j with description := some (tok ++ ' ' :: d) },
            round2 (finalScoreOf { j with description := some (tok ++ ' ' :: d) } p),
            reasonsOf { j with description := some (tok ++ ' ' :: d) } p,
            keywordsOf { j with description := some (tok ++ ' ' :: d) } p⟩ := by
        unfold scoreJob
        rw [if_neg (by rw [hfr']; exact Bool.false_ne_true), if_neg hov,
          if_neg (fun hx => hdne' hx.2)]
      refine ⟨_, _, hs1, hs2, ?_⟩
      show round2 (finalScoreOf j p) ≤
        round2 (finalScoreOf { j with description := some (tok ++ ' ' :: d) } p)
      refine round2_mono ?_
      have h1 : finalScoreOf j p = cappedOf j p := by
        unfold finalScoreOf
        rw [if_neg (fun hx => hc0 hx.1)]
      have h2 : cappedOf j p ≤
          cappedOf { j with description := some (tok ++ ' ' :: d) } p :=
        capped_mono j p tok d hd
      have hcpos : 0 < cappedOf j p :=
        lt_of_le_of_ne (capped_nonneg j p) (fun he => hc0 he.symm)
      have h3 : finalScoreOf { j with description := some (tok ++ ' ' :: d) } p =
          cappedOf { j with description := some (tok ++ ' ' :: d) } p := by
        unfold finalScoreOf
        rw [if_neg (fun hx => by rw [hx.1] at h2; linarith)]
      rw [h1, h3]
      exact h2

/-- Witness for C6 at a concrete input. -/
theorem C6_skill_monotonicity_witness :
    ∃ s s', scoreJob c3job c3profile = some s ∧
      scoreJob { c3job with description := some ("python".data ++ ' ' :: "Kubernetes, Python, 8+ years, incident response".data) } c3profile = some s' ∧
      s.score ≤ s'.score :=
  C6_skill_monotonicity_amended c3job c3profile
    "Kubernetes, Python, 8+ years, incident response".data "python".data
    (by decide) (by decide) (by decide) (by decide) (by decide)
